import Mathlib

/- Shallow embedding of the warp-consistency training components of the
   DM_modified repository (triplet creation, flow composition, masks and
   loss modules).  Tensors are embedded as functions from pixel indices to
   exact rationals (reals for the loss modules, whose per-pixel error maps
   use square roots and fractional powers); machine floats are modelled by
   exact arithmetic with the literal epsilon constants of the source. -/

namespace DM

/-- A single-channel 2-D tensor (one batch sample): value at row i, column j. -/
abbrev Image : Type := ℕ → ℕ → ℚ

/-- A 2-channel flow field: first component is channel 0 (horizontal
displacement, in pixels), second is channel 1 (vertical displacement). -/
abbrev Flow : Type := (ℕ → ℕ → ℚ) × (ℕ → ℕ → ℚ)

/- ----------------------------------------------------------------------
   Center crop of `BatchedImageTripletCreation.__call__`
   (training/actors/warp_consistency_utils/online_triplet_creation.py):
     x_start = w // 2 - self.crop_size[1] // 2
     y_start = h // 2 - self.crop_size[0] // 2
     source_image[:, :, y_start : y_start + crop_size[0],
                        x_start : x_start + crop_size[1]]
   `BatchedImageTripletCreation2Flows.__call__` computes the same offsets.
   Python floor division on the nonnegative sizes is ℕ division; the slice
   start can be a negative int, which Python interprets relative to the end
   of the dimension.  We embed Python slice normalisation exactly.
   ---------------------------------------------------------------------- -/

/-- Center-crop start offset along one spatial dimension of size `n` for
crop size `c`: `n // 2 - c // 2` as in the source (an `int`, possibly
negative). -/
def cropStartOffset (n c : ℕ) : ℤ :=
  ((n / 2 : ℕ) : ℤ) - ((c / 2 : ℕ) : ℤ)

/-- Normalisation of a (possibly negative) Python slice endpoint against a
dimension of size `n`: a negative index counts from the end (clamped at 0),
a nonnegative one is clamped at `n`. -/
def pySliceNorm (n : ℕ) (i : ℤ) : ℕ :=
  if i < 0 then ((n : ℤ) + i).toNat else min i.toNat n

/-- Number of indices selected by the Python slice `start : start + c` on a
dimension of size `n`. -/
def pySliceLen (n : ℕ) (start : ℤ) (c : ℕ) : ℕ :=
  pySliceNorm n (start + (c : ℤ)) - pySliceNorm n start

/-- Center crop of one dimension of size `n` to crop size `c`: the
normalised start index and the length of `tensor[x_start : x_start + c]`
where `x_start = n // 2 - c // 2`. -/
def centerCropDim (n c : ℕ) : ℕ × ℕ :=
  (pySliceNorm n (cropStartOffset n c), pySliceLen n (cropStartOffset n c) c)

/-- Contents of the centre-cropped image: entry (i, j) of the crop of an
`h`×`w` image to crop size `ch`×`cw`. -/
def centerCrop2D (h w ch cw : ℕ) (img : Image) : Image :=
  fun i j => img ((centerCropDim h ch).1 + i) ((centerCropDim w cw).1 + j)

/- ----------------------------------------------------------------------
   `sparse_max_pool` (training/losses/basic_losses.py):
     positive = (input > 0).float()
     negative = (input < 0).float()
     output = F.adaptive_max_pool2d(input * positive, size)
              - F.adaptive_max_pool2d(-input * negative, size)
   `F.adaptive_max_pool2d` maps output cell i (of `on` cells over an input
   dimension of size `n`) to the input window [i*n/on, ceil((i+1)*n/on)).
   ---------------------------------------------------------------------- -/

/-- Start of the adaptive-pooling window of output index `i` (`outn` output
cells over an input dimension of size `n`). -/
def admStart (i outn n : ℕ) : ℕ := i * n / outn

/-- One-past-the-end of the adaptive-pooling window of output index `i`. -/
def admEnd (i outn n : ℕ) : ℕ := ((i + 1) * n + outn - 1) / outn

/-- Maximum of a list of rationals (the torch maximum of an empty window is
undefined; we return 0 there, which no caller in the sources hits). -/
def listMax : List ℚ → ℚ
  | [] => 0
  | [a] => a
  | a :: b :: t => max a (listMax (b :: t))

/-- The values of an image over a rectangular window: rows
`[r0, r0 + rn)`, columns `[c0, c0 + cn)`, in row-major order. -/
def windowVals (img : Image) (r0 rn c0 cn : ℕ) : List ℚ :=
  ((List.range' r0 rn).map (fun i => (List.range' c0 cn).map (fun j => img i j))).flatten

/-- `F.adaptive_max_pool2d`: maximum of the input over the pooling window of
each output cell. -/
def adaptive_max_pool2d (h w oh ow : ℕ) (img : Image) : Image :=
  fun i j =>
    listMax (windowVals img (admStart i oh h) (admEnd i oh h - admStart i oh h)
      (admStart j ow w) (admEnd j ow w - admStart j ow w))

/-- `sparse_max_pool`: positive values max-pooled, negative values
min-pooled (as max of the negation), the two results summed. -/
def sparse_max_pool (h w oh ow : ℕ) (img : Image) : Image :=
  fun i j =>
    let positive : Image := fun a b => if 0 < img a b then 1 else 0
    let negative : Image := fun a b => if img a b < 0 then 1 else 0
    adaptive_max_pool2d h w oh ow (fun a b => img a b * positive a b) i j
      - adaptive_max_pool2d h w oh ow (fun a b => (-(img a b)) * negative a b) i j

/-- The 4×4 sparse flow map of the spec's sparse-downsampling test: +5 at
position (0,0), -3 at (3,3), zero elsewhere. -/
def sparseTestMap : Image :=
  fun i j => if i = 0 ∧ j = 0 then 5 else if i = 3 ∧ j = 3 then -3 else 0

/- ----------------------------------------------------------------------
   `F.interpolate(..., mode='bilinear', align_corners=False)`: source
   coordinate of output cell i is (i + 1/2) * n / outn - 1/2, clamped below
   at 0; the two neighbouring indices are clamped into [0, n-1] (edge
   replication), and the value is the bilinear blend.
   ---------------------------------------------------------------------- -/

/-- Source coordinate of `F.interpolate` bilinear, align_corners=False. -/
def interpSrcCoord (n outn : ℕ) (i : ℕ) : ℚ :=
  max 0 (((i : ℚ) + 1/2) * (n : ℚ) / (outn : ℚ) - 1/2)

/-- Clamp an index into [0, n-1]. -/
def clampIdx (n k : ℕ) : ℕ := min k (n - 1)

/-- `F.interpolate(img, (oh, ow), mode='bilinear', align_corners=False)`
for an `h`×`w` input. -/
def interpolateBilinear (h w oh ow : ℕ) (img : Image) : Image :=
  fun i j =>
    let sy := interpSrcCoord h oh i
    let sx := interpSrcCoord w ow j
    let y0 : ℕ := (⌊sy⌋).toNat
    let x0 : ℕ := (⌊sx⌋).toNat
    let ty : ℚ := sy - (y0 : ℚ)
    let tx : ℚ := sx - (x0 : ℚ)
    (1 - ty) * ((1 - tx) * img (clampIdx h y0) (clampIdx w x0)
        + tx * img (clampIdx h y0) (clampIdx w (x0 + 1)))
      + ty * ((1 - tx) * img (clampIdx h (y0 + 1)) (clampIdx w x0)
        + tx * img (clampIdx h (y0 + 1)) (clampIdx w (x0 + 1)))

/- ----------------------------------------------------------------------
   The three flow-resize sites of claim C3.
   ---------------------------------------------------------------------- -/

/-- Synthetic-flow rescale of `BatchedImageTripletCreation.__call__` (and
of the crop→output resize further down, and of both generators in
`BatchedImageTripletCreation2Flows.__call__`): resize the flow from its
native size (h_f, w_f) to (h, w) bilinearly, then
`flow_gt[:, 0] *= w / w_f` and `flow_gt[:, 1] *= h / h_f`. -/
def tripletFlowRescale (h_f w_f h w : ℕ) (f : Flow) : Flow :=
  (fun i j => interpolateBilinear h_f w_f h w f.1 i j * ((w : ℚ) / (w_f : ℚ)),
   fun i j => interpolateBilinear h_f w_f h w f.2 i j * ((h : ℚ) / (h_f : ℚ)))

/-- The upsampling of the estimated flow in `realEPE` (basic_losses.py):
bilinear interpolation of the (h_, w_) output to the (h, w) target size;
channel 0 is multiplied by ratio_x and channel 1 by ratio_y only when both
ratios are passed, otherwise the interpolated values are used unscaled. -/
def realEPEUpsample (h_ w_ h w : ℕ) (f : Flow) (ratio_x ratio_y : Option ℚ) : Flow :=
  match ratio_x, ratio_y with
  | some rx, some ry =>
    (fun i j => interpolateBilinear h_ w_ h w f.1 i j * rx,
     fun i j => interpolateBilinear h_ w_ h w f.2 i j * ry)
  | _, _ =>
    (fun i j => interpolateBilinear h_ w_ h w f.1 i j,
     fun i j => interpolateBilinear h_ w_ h w f.2 i j)

/-- The synthetic-flow downsampling inside
`WBipathLoss.get_cyclic_consistency_mask` (warp_consistency_losses.py):
`synthetic_flow = F.interpolate(synthetic_flow, (h_, w_), mode='bilinear',
align_corners=False)` — bilinear resize only, with NO channel rescaling. -/
def cyclicSyntheticDownsample (h w h_ w_ : ℕ) (f : Flow) : Flow :=
  (fun i j => interpolateBilinear h w h_ w_ f.1 i j,
   fun i j => interpolateBilinear h w h_ w_ f.2 i j)

/-- Modelled from the spec: the channel-rescale invariant of §3 — when a
flow field is resized from (h, w) to (h2, w2), channel 0 is multiplied by
w2/w and channel 1 by h2/h. -/
def specChannelRescale (h w h2 w2 : ℕ) (f : Flow) : Flow :=
  (fun i j => interpolateBilinear h w h2 w2 f.1 i j * ((w2 : ℚ) / (w : ℚ)),
   fun i j => interpolateBilinear h w h2 w2 f.2 i j * ((h2 : ℚ) / (h : ℚ)))

/- ----------------------------------------------------------------------
   Bilinear sampling with zeros padding, `F.grid_sample` with
   align_corners=True, and the warp operators.
   ---------------------------------------------------------------------- -/

/-- Pixel fetch with zeros padding: out-of-range samples return 0. -/
def getPixelZeros (H W : ℕ) (img : Image) (i j : ℤ) : ℚ :=
  if 0 ≤ i ∧ i < (H : ℤ) ∧ 0 ≤ j ∧ j < (W : ℤ) then img i.toNat j.toNat else 0

/-- Bilinear sampling of an image at a rational coordinate (row sy, column
sx) with zeros padding. -/
def bilinearSampleZeros (H W : ℕ) (img : Image) (sy sx : ℚ) : ℚ :=
  let y0 : ℤ := ⌊sy⌋
  let x0 : ℤ := ⌊sx⌋
  let ty : ℚ := sy - (y0 : ℚ)
  let tx : ℚ := sx - (x0 : ℚ)
  (1 - ty) * ((1 - tx) * getPixelZeros H W img y0 x0
      + tx * getPixelZeros H W img y0 (x0 + 1))
    + ty * ((1 - tx) * getPixelZeros H W img (y0 + 1) x0
      + tx * getPixelZeros H W img (y0 + 1) (x0 + 1))

/-- `F.grid_sample(img, vgrid, align_corners=True)` at a normalized
coordinate (vy, vx) ∈ [-1,1]²: unnormalize to ((v+1)/2)·(size-1), then
bilinear with zeros padding (the default padding_mode). -/
def gridSampleZeros (H W : ℕ) (img : Image) (vy vx : ℚ) : ℚ :=
  bilinearSampleZeros H W img ((vy + 1) / 2 * ((H : ℚ) - 1)) ((vx + 1) / 2 * ((W : ℚ) - 1))

/-- Channel 0 of the normalized sampling grid of `PWCNetModel.warp`:
`vgrid = grid + flo`, then `2 * vgrid_x / max(W-1, 1) - 1`. -/
def pwcVgridX (W : ℕ) (flo : Flow) (i j : ℕ) : ℚ :=
  2 * ((j : ℚ) + flo.1 i j) / max ((W : ℚ) - 1) 1 - 1

/-- Channel 1 of the normalized sampling grid of `PWCNetModel.warp`. -/
def pwcVgridY (H : ℕ) (flo : Flow) (i j : ℕ) : ℚ :=
  2 * ((i : ℚ) + flo.2 i j) / max ((H : ℚ) - 1) 1 - 1

/-- The validity mask of `PWCNetModel.warp`: an all-ones tensor sampled on
the same grid, then `mask[mask < 0.9999] = 0` and `mask[mask > 0] = 1`. -/
def pwcWarpMask (H W : ℕ) (flo : Flow) : Image :=
  fun i j =>
    let m := gridSampleZeros H W (fun _ _ => 1) (pwcVgridY H flo i j) (pwcVgridX W flo i j)
    let m1 := if m < 0.9999 then 0 else m
    if 0 < m1 then 1 else m1

/-- `PWCNetModel.warp` (models/PWCNet/pwc_net.py): bilinear sampling of x
at the identity-plus-flow grid, multiplied by the thresholded validity
mask; `x` carries batch and channel leading indices, the flow one batch
index. -/
def pwcWarp (H W : ℕ) (x : ℕ → ℕ → Image) (flo : ℕ → Flow) : ℕ → ℕ → Image :=
  fun b c i j =>
    gridSampleZeros H W (x b c) (pwcVgridY H (flo b) i j) (pwcVgridX W (flo b) i j)
      * pwcWarpMask H W (flo b) i j

/-- The all-zero flow field. -/
def zeroFlow : Flow := (fun _ _ => 0, fun _ _ => 0)

/-- Modelled from the spec: the warp operator of §4.1
(`utils_flow/pixel_wise_mapping.warp`, imported by the triplet constructor
and the W-bipath loss but whose source file is not under src/): sampling
grid = identity pixel grid + flow, normalized to [-1,1] dividing by
max(dim-1, 1), bilinear sampling, zeros padding by default.  It is the
sampling of `PWCNetModel.warp` without the extra mask multiplication. -/
def warp (H W : ℕ) (img : Image) (flo : Flow) : Image :=
  fun i j => gridSampleZeros H W img (pwcVgridY H flo i j) (pwcVgridX W flo i j)

/- ----------------------------------------------------------------------
   `WBipathLoss.__call__` per-level flow composition and training mask
   (training/losses/warp_consistency_losses.py).  (h, w) is the size of the
   ground-truth flow_map, (h_, w_) the size of the level's estimated flows.
   Detaching (`.detach() * 1.0`) does not change values, so the embedding
   is the same for both settings of detach_flow_for_warping.
   ---------------------------------------------------------------------- -/

/-- The rescaled copy of estimated_flow_target_prime_to_source used
strictly for warping:
`estimated_flow_target_prime_to_source_per_level_warping[:, 0] *= w_ / w`
and `[:, 1] *= h_ / h`. -/
def wbipathWarpingCopy (h w h_ w_ : ℕ) (est : Flow) : Flow :=
  (fun i j => est.1 i j * ((w_ : ℚ) / (w : ℚ)),
   fun i j => est.2 i j * ((h_ : ℚ) / (h : ℚ)))

/-- Warping a 2-channel flow field with the warp operator, channel-wise. -/
def warpFlow (H W : ℕ) (f : Flow) (flo : Flow) : Flow :=
  (fun i j => warp H W f.1 flo i j, fun i j => warp H W f.2 flo i j)

/-- `warping_flow_source_to_target = warp(estimated_flow_source_to_target,
estimated_flow_target_prime_to_source_per_level_warping)`. -/
def wbipathWarpingFlow (h w h_ w_ : ℕ) (est_tp2s est_s2t : Flow) : Flow :=
  warpFlow h_ w_ est_s2t (wbipathWarpingCopy h w h_ w_ est_tp2s)

/-- `estimated_flow = estimated_flow_target_prime_to_source_per_level +
warping_flow_source_to_target`: the composed target-prime→target flow at
one pyramid level. -/
def wbipathComposedFlow (h w h_ w_ : ℕ) (est_tp2s est_s2t : Flow) : Flow :=
  (fun i j => est_tp2s.1 i j + (wbipathWarpingFlow h w h_ w_ est_tp2s est_s2t).1 i j,
   fun i j => est_tp2s.2 i j + (wbipathWarpingFlow h w h_ w_ est_tp2s est_s2t).2 i j)

/-- `length_sq(x) = torch.sum(x**2, dim=1)`. -/
def length_sq (f : Flow) : ℕ → ℕ → ℚ :=
  fun i j => (f.1 i j) ^ 2 + (f.2 i j) ^ 2

/-- `WBipathLoss.get_cyclic_consistency_mask`: downsample the synthetic
flow bilinearly to the level size, flag a pixel occluded when
`||est + warping - synthetic||² > alpha_1 * (|est|² + |warping|² +
|synthetic|²) + alpha_2`, and return the negation. -/
def get_cyclic_consistency_mask (alpha_1 alpha_2 : ℚ) (h w h_ w_ : ℕ)
    (est_tp2s warping synthetic_flow : Flow) : ℕ → ℕ → Bool :=
  fun i j =>
    let sdown := cyclicSyntheticDownsample h w h_ w_ synthetic_flow
    let mag_sq_fw := length_sq est_tp2s i j + length_sq warping i j + length_sq sdown i j
    let occ_thresh_fw := alpha_1 * mag_sq_fw + alpha_2
    let diff : Flow := (fun a b => est_tp2s.1 a b + warping.1 a b - sdown.1 a b,
                        fun a b => est_tp2s.2 a b + warping.2 a b - sdown.2 a b)
    !(decide (occ_thresh_fw < length_sq diff i j))

/-- The per-level training mask of `WBipathLoss.__call__`: warp an all-ones
map with the (detached) warping flow and keep pixels ≥ 0.2; AND with the
bilinearly downsampled external mask thresholded at 0.98 when one is
supplied; AND with the cyclic-consistency mask when
compute_cyclic_consistency is enabled. -/
def wbipathMask (computeCyclic : Bool) (alpha_1 alpha_2 : ℚ) (h w h_ w_ : ℕ)
    (mask_used : Option (ℕ → ℕ → ℚ)) (est_tp2s est_s2t synthetic_flow : Flow) :
    ℕ → ℕ → Bool :=
  fun i j =>
    let wc := wbipathWarpingCopy h w h_ w_ est_tp2s
    let m1 : Bool := decide ((0.2 : ℚ) ≤ warp h_ w_ (fun _ _ => 1) wc i j)
    let m2 : Bool :=
      match mask_used with
      | some mu => m1 && decide ((0.98 : ℚ) ≤ interpolateBilinear h w h_ w_ mu i j)
      | none => m1
    if computeCyclic then
      m2 && get_cyclic_consistency_mask alpha_1 alpha_2 h w h_ w_ est_tp2s
        (wbipathWarpingFlow h w h_ w_ est_tp2s est_s2t) synthetic_flow i j
    else m2

/- ----------------------------------------------------------------------
   `weights_self_supervised_and_unsupervised`
   (training/losses/warp_consistency_losses.py): adaptive balancing of the
   self-supervised (warp_supervision) and unsupervised (w_bipath) losses.
   Detaching does not change scalar values, and the stats dictionary is
   pure logging; the embedding returns (u_l_w, s_l_w, loss).
   ---------------------------------------------------------------------- -/

/-- Adaptive loss balancing: when constant weights are not applied, the
larger of the two detached losses keeps weight 1 and the other is scaled by
the loss quotient (with epsilon 1e-8) and the configured weight quotient;
otherwise the configured constant weights are used. -/
def weights_self_supervised_and_unsupervised (apply_constant_weights : Bool)
    (w_warp_supervision w_w_bipath w_w_bipath_constant w_warp_supervision_constant : ℚ)
    (loss_su loss_un : ℚ) : ℚ × ℚ × ℚ :=
  if apply_constant_weights = false then
    let ratio := w_warp_supervision / w_w_bipath
    if loss_su < loss_un then
      let u_l_w : ℚ := 1
      let s_l_w : ℚ := loss_un / (loss_su + 1e-8) * ratio
      (u_l_w, s_l_w, loss_un * u_l_w + loss_su * s_l_w)
    else
      let u_l_w : ℚ := loss_su / (loss_un + 1e-8) / ratio
      let s_l_w : ℚ := 1
      (u_l_w, s_l_w, loss_un * u_l_w + loss_su * s_l_w)
  else
    (w_w_bipath_constant, w_warp_supervision_constant,
      w_w_bipath_constant * loss_un + w_warp_supervision_constant * loss_su)

/- ----------------------------------------------------------------------
   The point-wise loss classes `EPE`, `L1`, `L1Charbonnier`
   (training/losses/basic_losses.py).  Their error maps use square roots
   and fractional powers, so this part of the embedding lives in ℝ.
   Flows are batched ((batch, row, col) ↦ (channel 0, channel 1)).
   ---------------------------------------------------------------------- -/

/-- A batched 2-channel flow field over ℝ. -/
abbrev BFlow : Type := ℕ → ℕ → ℕ → ℝ × ℝ

/-- A batched boolean mask. -/
abbrev BMask : Type := ℕ → ℕ → ℕ → Bool

/-- A batched per-pixel error map. -/
abbrev ErrMap : Type := ℕ → ℕ → ℕ → ℝ

/-- `torch.isnan` on the exact-arithmetic embedding: exact real arithmetic
produces no NaN, so this is constantly false. -/
def isNaNReal (_x : ℝ) : Bool := false

/-- `torch.isinf` on the exact-arithmetic embedding: constantly false. -/
def isInfReal (_x : ℝ) : Bool := false

/-- Per-pixel EPE error map: `torch.norm(gt_flow - est_flow, 2, 1)`. -/
noncomputable def epeMap (gt est : BFlow) : ErrMap :=
  fun bb i j =>
    Real.sqrt (((gt bb i j).1 - (est bb i j).1) ^ 2 + ((gt bb i j).2 - (est bb i j).2) ^ 2)

/-- Per-pixel L1 error map: `torch.sum(torch.abs(est_flow - gt_flow), 1)`. -/
def l1Map (gt est : BFlow) : ErrMap :=
  fun bb i j => |(est bb i j).1 - (gt bb i j).1| + |(est bb i j).2 - (gt bb i j).2|

/-- Per-pixel Charbonnier error map:
`torch.pow(L1 + epsilon, alpha)` with epsilon = 0.01, alpha = 0.4. -/
noncomputable def charbMap (gt est : BFlow) : ErrMap :=
  fun bb i j => (l1Map gt est bb i j + 0.01) ^ (0.4 : ℝ)

/-- The mask the losses actually use: NaN/Inf pixels removed from the given
mask when one is supplied, the plain NaN/Inf validity mask otherwise
(`mask = ~isnan & ~isinf & mask` / `mask = ~isnan & ~isinf`). -/
def nanInfMask (errMap : ErrMap) (mask : Option BMask) : BMask :=
  fun bb i j =>
    match mask with
    | some m => !isNaNReal (errMap bb i j) && !isInfReal (errMap bb i j) && m bb i j
    | none => !isNaNReal (errMap bb i j) && !isInfReal (errMap bb i j)

/-- Number of valid pixels of one sample: `mask[bb, ...].sum()`. -/
def validCount (h w : ℕ) (m : ℕ → ℕ → Bool) : ℕ :=
  (((Finset.range h) ×ˢ (Finset.range w)).filter (fun p => m p.1 p.2 = true)).card

/-- One sample's term of the per-sample-normalized loss:
`EPE_map[bb][mask[bb] != 0].sum() * norm_const` with
`norm_const = float(h*w) / (mask[bb].sum() + 1e-6)`. -/
noncomputable def sampleContrib (h w : ℕ) (em : ℕ → ℕ → ℝ) (m : ℕ → ℕ → Bool) : ℝ :=
  (∑ p in ((Finset.range h) ×ˢ (Finset.range w)).filter (fun p => m p.1 p.2 = true),
      em p.1 p.2)
    * (((h : ℝ) * (w : ℝ)) / ((validCount h w m : ℝ) + 1e-6))

/-- The per-sample-normalized batch loss `L`: the error map is multiplied
by the float mask, then each sample's masked sum is scaled by its
norm_const and the results are summed over the batch. -/
noncomputable def perSampleNormalizedLoss (b h w : ℕ) (errMap : ErrMap) (m : BMask) : ℝ :=
  ∑ bb in Finset.range b,
    sampleContrib h w (fun i j => errMap bb i j * (if m bb i j then 1 else 0))
      (fun i j => m bb i j)

/-- What a loss `__call__` can return: a scalar, or (only on the final
`sum_normalized=False` fallthrough) the raw per-pixel error map. -/
inductive LossOutput where
  | scalar : ℝ → LossOutput
  | errmap : ErrMap → LossOutput

/-- Sum of an error map over all of (b, h, w). -/
noncomputable def totalSum (b h w : ℕ) (em : ErrMap) : ℝ :=
  ∑ bb in Finset.range b, ∑ i in Finset.range h, ∑ j in Finset.range w, em bb i j

/-- `EPE.__call__`: error map, NaN/Inf-augmented mask (always non-None),
then the per-sample-normalized branch; the `valid_transformation_bool` and
raw branches below it are kept as written in the source. -/
noncomputable def EPE.call (sum_normalized : Bool) (valid_transformation : Option (ℕ → ℝ))
    (b h w : ℕ) (gt est : BFlow) (mask : Option BMask) : LossOutput :=
  let EPE_map := epeMap gt est
  let mask2 : Option BMask := some (nanInfMask EPE_map mask)
  match mask2 with
  | some m =>
    let L := perSampleNormalizedLoss b h w EPE_map m
    if sum_normalized then .scalar (L / (b : ℝ)) else .scalar L
  | none =>
    match valid_transformation with
    | some v =>
      let vm : ErrMap := fun bb i j => EPE_map bb i j * v bb
      if sum_normalized then
        .scalar (totalSum b h w vm / (∑ bb in Finset.range b, v bb))
      else .scalar (totalSum b h w vm)
    | none =>
      if sum_normalized then .scalar (totalSum b h w EPE_map / (b : ℝ))
      else .errmap EPE_map

/-- `L1.__call__`: as `EPE.__call__` with the L1 error map (its
`valid_transformation_bool` branch has no sum_normalized test). -/
noncomputable def L1.call (sum_normalized : Bool) (valid_transformation : Option (ℕ → ℝ))
    (b h w : ℕ) (gt est : BFlow) (mask : Option BMask) : LossOutput :=
  let L1_map := l1Map gt est
  let mask2 : Option BMask := some (nanInfMask L1_map mask)
  match mask2 with
  | some m =>
    let L := perSampleNormalizedLoss b h w L1_map m
    if sum_normalized then .scalar (L / (b : ℝ)) else .scalar L
  | none =>
    match valid_transformation with
    | some v =>
      let vm : ErrMap := fun bb i j => L1_map bb i j * v bb
      .scalar (totalSum b h w vm / (∑ bb in Finset.range b, v bb))
    | none =>
      if sum_normalized then .scalar (totalSum b h w L1_map / (b : ℝ))
      else .errmap L1_map

/-- `L1Charbonnier.__call__`: as `L1.__call__` with the Charbonnier error
map. -/
noncomputable def L1Charbonnier.call (sum_normalized : Bool)
    (valid_transformation : Option (ℕ → ℝ))
    (b h w : ℕ) (gt est : BFlow) (mask : Option BMask) : LossOutput :=
  let norm_map := charbMap gt est
  let mask2 : Option BMask := some (nanInfMask norm_map mask)
  match mask2 with
  | some m =>
    let L := perSampleNormalizedLoss b h w norm_map m
    if sum_normalized then .scalar (L / (b : ℝ)) else .scalar L
  | none =>
    match valid_transformation with
    | some v =>
      let vm : ErrMap := fun bb i j => norm_map bb i j * v bb
      .scalar (totalSum b h w vm / (∑ bb in Finset.range b, v bb))
    | none =>
      if sum_normalized then .scalar (totalSum b h w norm_map / (b : ℝ))
      else .errmap norm_map

/-- The spec's per-sample-normalization test batch: ground truth 0. -/
def demoGt : BFlow := fun _ _ _ => (0, 0)

/-- The spec's per-sample-normalization test batch: estimate (1, 0), so
every pixel of every sample has L1 error exactly 1. -/
def demoEst : BFlow := fun _ _ _ => (1, 0)

/-- The spec's per-sample-normalization test masks: sample 0 fully valid,
sample 1 valid only at pixel (0,0) — 1% of a 10×10 image. -/
def demoMask : BMask :=
  fun bb i j => if bb = 0 then true else decide (i = 0 ∧ j = 0)

/-- The all-invalid mask. -/
def falseMask : BMask := fun _ _ _ => false

end DM

/- ------------------------- theorems ---------------------------------- -/

namespace DM

/-- Claim C1: the spec requires that for crop size ≥ image size the centre
crop degenerates to the full image with never-negative start offsets.  The
code computes `x_start = w // 2 - c // 2` with no guard: for a 5×5 image and
crop size 6 the offset is -1, Python slice normalisation turns `[-1 : 5]`
into the single index 4, and the crop is the 1×1 bottom-right corner, not
the full image (witnessed on the image `img i j = 5 i + j`, whose cropped
(0,0) entry is `img 4 4 = 24`, not `img 0 0 = 0`). -/
theorem crop_claim_fails_for_crop6_image5 :
    cropStartOffset 5 6 = -1 ∧
    (centerCropDim 5 6).1 = 4 ∧
    (centerCropDim 5 6).2 = 1 ∧
    (centerCropDim 5 6).2 ≠ 5 ∧
    centerCrop2D 5 5 6 6 (fun i j => ((5 * i + j : ℕ) : ℚ)) 0 0 = 24 ∧
    centerCrop2D 5 5 6 6 (fun i j => ((5 * i + j : ℕ) : ℚ)) 0 0 ≠
      (fun i j => ((5 * i + j : ℕ) : ℚ)) 0 0 := by
  refine ⟨by decide, by decide, by decide, by decide, by decide, by decide⟩

/-- Claim C8: downsampling the 4×4 sparse map (+5 at (0,0), -3 at (3,3),
zero elsewhere) to 2×2 with `sparse_max_pool` yields [[5,0],[0,-3]]: the
output cell whose window contains (0,0) keeps the +5, the one whose window
contains (3,3) keeps the -3, and the two positions are never both zero. -/
theorem sparse_max_pool_isolated_values_survive :
    sparse_max_pool 4 4 2 2 sparseTestMap 0 0 = 5 ∧
    sparse_max_pool 4 4 2 2 sparseTestMap 0 1 = 0 ∧
    sparse_max_pool 4 4 2 2 sparseTestMap 1 0 = 0 ∧
    sparse_max_pool 4 4 2 2 sparseTestMap 1 1 = -3 ∧
    ¬(sparse_max_pool 4 4 2 2 sparseTestMap 0 0 = 0 ∧
      sparse_max_pool 4 4 2 2 sparseTestMap 1 1 = 0) := by
  have h00 : sparse_max_pool 4 4 2 2 sparseTestMap 0 0 = 5 := by
    norm_num [sparse_max_pool, adaptive_max_pool2d, windowVals, admStart, admEnd,
      sparseTestMap, listMax, List.range', max_def]
  have h11 : sparse_max_pool 4 4 2 2 sparseTestMap 1 1 = -3 := by
    norm_num [sparse_max_pool, adaptive_max_pool2d, windowVals, admStart, admEnd,
      sparseTestMap, listMax, List.range', max_def]
  refine ⟨h00, ?_, ?_, h11, ?_⟩
  · norm_num [sparse_max_pool, adaptive_max_pool2d, windowVals, admStart, admEnd,
      sparseTestMap, listMax, List.range', max_def]
  · norm_num [sparse_max_pool, adaptive_max_pool2d, windowVals, admStart, admEnd,
      sparseTestMap, listMax, List.range', max_def]
  · rintro ⟨ha, _⟩
    rw [h00] at ha
    norm_num at ha

/-- Claim C3 counterexample: the synthetic-flow downsampling inside the
cyclic-consistency mask does NOT rescale the channels.  Downsampling the
constant flow (4, 0) from 2×2 to 1×1 leaves channel 0 at 4, whereas the
claimed W'/W rescale would give 4 · (1/2) = 2. -/
theorem cyclic_downsample_omits_channel_rescale :
    (cyclicSyntheticDownsample 2 2 1 1 (fun _ _ => (4 : ℚ), fun _ _ => 0)).1 0 0 = 4 ∧
    (specChannelRescale 2 2 1 1 (fun _ _ => (4 : ℚ), fun _ _ => 0)).1 0 0 = 2 ∧
    (cyclicSyntheticDownsample 2 2 1 1 (fun _ _ => (4 : ℚ), fun _ _ => 0)).1 0 0 ≠
      (specChannelRescale 2 2 1 1 (fun _ _ => (4 : ℚ), fun _ _ => 0)).1 0 0 := by
  refine ⟨?_, ?_, ?_⟩ <;>
    norm_num [cyclicSyntheticDownsample, specChannelRescale, interpolateBilinear,
      interpSrcCoord, clampIdx]

/-- Claim C3 (amended): the synthetic-flow rescale in the triplet
constructor and the ratio-scaled upsampling in realEPE (with the
width/height ratios passed) multiply channel 0 by W'/W and channel 1 by
H'/H, never swapped; the synthetic-flow downsampling inside the
cyclic-consistency mask is plain bilinear interpolation with no channel
rescaling. -/
theorem flow_resize_channel_rescale_sites :
    (∀ h_f w_f h w : ℕ, ∀ f : Flow, ∀ i j : ℕ,
      (tripletFlowRescale h_f w_f h w f).1 i j = (specChannelRescale h_f w_f h w f).1 i j ∧
      (tripletFlowRescale h_f w_f h w f).2 i j = (specChannelRescale h_f w_f h w f).2 i j) ∧
    (∀ h_ w_ h w : ℕ, ∀ f : Flow, ∀ i j : ℕ,
      (realEPEUpsample h_ w_ h w f (some ((w : ℚ) / (w_ : ℚ))) (some ((h : ℚ) / (h_ : ℚ)))).1 i j
        = (specChannelRescale h_ w_ h w f).1 i j ∧
      (realEPEUpsample h_ w_ h w f (some ((w : ℚ) / (w_ : ℚ))) (some ((h : ℚ) / (h_ : ℚ)))).2 i j
        = (specChannelRescale h_ w_ h w f).2 i j) ∧
    (∀ h w h_ w_ : ℕ, ∀ f : Flow, ∀ i j : ℕ,
      (cyclicSyntheticDownsample h w h_ w_ f).1 i j = interpolateBilinear h w h_ w_ f.1 i j ∧
      (cyclicSyntheticDownsample h w h_ w_ f).2 i j = interpolateBilinear h w h_ w_ f.2 i j) := by
  refine ⟨fun h_f w_f h w f i j => ⟨rfl, rfl⟩,
    fun h_ w_ h w f i j => ⟨rfl, rfl⟩,
    fun h w h_ w_ f i j => ⟨rfl, rfl⟩⟩

/-- Bilinear sampling with zeros padding at an exact in-range integer
coordinate reproduces the input value. -/
theorem bilinearSampleZeros_at_pixel (H W : ℕ) (img : Image) (i j : ℕ)
    (hi : i < H) (hj : j < W) :
    bilinearSampleZeros H W img (i : ℚ) (j : ℚ) = img i j := by
  simp only [bilinearSampleZeros, Int.floor_natCast, Int.cast_natCast, sub_self,
    sub_zero, one_mul, zero_mul, add_zero, mul_zero]
  unfold getPixelZeros
  rw [if_pos ⟨Int.natCast_nonneg i, by exact_mod_cast hi, Int.natCast_nonneg j,
    by exact_mod_cast hj⟩]
  simp

/-- Unnormalizing the align_corners=True grid coordinate of an in-range
pixel index returns that index. -/
theorem unnormalize_vgrid_at_pixel (n k : ℕ) (hk : k < n) :
    (2 * (k : ℚ) / max ((n : ℚ) - 1) 1 - 1 + 1) / 2 * ((n : ℚ) - 1) = (k : ℚ) := by
  rcases Nat.lt_or_ge n 2 with h2 | h2
  · interval_cases n
    · omega
    · interval_cases k
      norm_num
  · have hmax : max ((n : ℚ) - 1) 1 = (n : ℚ) - 1 := by
      apply max_eq_left
      have : (2 : ℚ) ≤ (n : ℚ) := by exact_mod_cast h2
      linarith
    have hne : ((n : ℚ) - 1) ≠ 0 := by
      have : (2 : ℚ) ≤ (n : ℚ) := by exact_mod_cast h2
      intro hc; rw [sub_eq_zero] at hc; rw [hc] at this; norm_num at this
    rw [hmax]
    field_simp
    ring

/-- Claim C9: warping any (B,C,H,W) tensor with the all-zero flow field
returns the tensor itself: the unnormalized sampling grid reduces to the
identity pixel grid, bilinear sampling at exact pixel centers reproduces
the input values, and the thresholded in-range validity mask is 1
everywhere, so `PWCNetModel.warp(x, 0) = x`. -/
theorem pwc_warp_zero_flow_is_identity (H W : ℕ) (x : ℕ → ℕ → Image) (b c i j : ℕ)
    (hi : i < H) (hj : j < W) :
    (pwcVgridY H zeroFlow i j + 1) / 2 * ((H : ℚ) - 1) = (i : ℚ) ∧
    (pwcVgridX W zeroFlow i j + 1) / 2 * ((W : ℚ) - 1) = (j : ℚ) ∧
    pwcWarpMask H W zeroFlow i j = 1 ∧
    pwcWarp H W x (fun _ => zeroFlow) b c i j = x b c i j := by
  have hy : pwcVgridY H zeroFlow i j = 2 * (i : ℚ) / max ((H : ℚ) - 1) 1 - 1 := by
    simp [pwcVgridY, zeroFlow]
  have hx : pwcVgridX W zeroFlow i j = 2 * (j : ℚ) / max ((W : ℚ) - 1) 1 - 1 := by
    simp [pwcVgridX, zeroFlow]
  have hcy : (pwcVgridY H zeroFlow i j + 1) / 2 * ((H : ℚ) - 1) = (i : ℚ) := by
    rw [hy]; exact unnormalize_vgrid_at_pixel H i hi
  have hcx : (pwcVgridX W zeroFlow i j + 1) / 2 * ((W : ℚ) - 1) = (j : ℚ) := by
    rw [hx]; exact unnormalize_vgrid_at_pixel W j hj
  have hsample : ∀ img : Image,
      gridSampleZeros H W img (pwcVgridY H zeroFlow i j) (pwcVgridX W zeroFlow i j) = img i j := by
    intro img
    unfold gridSampleZeros
    rw [hcy, hcx]
    exact bilinearSampleZeros_at_pixel H W img i j hi hj
  have hmask : pwcWarpMask H W zeroFlow i j = 1 := by
    unfold pwcWarpMask
    rw [hsample (fun _ _ => 1)]
    norm_num
  refine ⟨hcy, hcx, hmask, ?_⟩
  unfold pwcWarp
  rw [hsample (x b c), hmask, mul_one]

/-- Witness for claim C9 at H = W = 1 on the constant tensor 3. -/
theorem pwc_warp_zero_flow_is_identity_witness :
    (0 : ℕ) < 1 ∧
    ((pwcVgridY 1 zeroFlow 0 0 + 1) / 2 * (((1 : ℕ) : ℚ) - 1) = ((0 : ℕ) : ℚ) ∧
     (pwcVgridX 1 zeroFlow 0 0 + 1) / 2 * (((1 : ℕ) : ℚ) - 1) = ((0 : ℕ) : ℚ) ∧
     pwcWarpMask 1 1 zeroFlow 0 0 = 1 ∧
     pwcWarp 1 1 (fun _ _ _ _ => 3) (fun _ => zeroFlow) 0 0 0 0 = 3) :=
  ⟨Nat.one_pos,
    pwc_warp_zero_flow_is_identity 1 1 (fun _ _ _ _ => 3) 0 0 0 0 Nat.one_pos Nat.one_pos⟩

/-- Claim C2: at every pyramid level the composed flow returned by
WBipathLoss equals estimated_flow_target_prime_to_source plus
warp(estimated_flow_source_to_target, R), where R is the copy of
estimated_flow_target_prime_to_source whose channel 0 is multiplied by
w_/w and channel 1 by h_/h. -/
theorem wbipath_composed_flow_law (h w h_ w_ : ℕ) (e1 e2 : Flow) (i j : ℕ) :
    (wbipathComposedFlow h w h_ w_ e1 e2).1 i j
      = e1.1 i j + (warpFlow h_ w_ e2
          (fun a b => e1.1 a b * ((w_ : ℚ) / (w : ℚ)),
           fun a b => e1.2 a b * ((h_ : ℚ) / (h : ℚ)))).1 i j ∧
    (wbipathComposedFlow h w h_ w_ e1 e2).2 i j
      = e1.2 i j + (warpFlow h_ w_ e2
          (fun a b => e1.1 a b * ((w_ : ℚ) / (w : ℚ)),
           fun a b => e1.2 a b * ((h_ : ℚ) / (h : ℚ)))).2 i j :=
  ⟨rfl, rfl⟩

/-- Claim C5: the per-level training mask with the cyclic-consistency
check enabled is a pointwise subset of the mask computed on the same
inputs with it disabled: a pixel valid with the check is valid without
it. -/
theorem cyclic_mask_only_removes_pixels (alpha_1 alpha_2 : ℚ) (h w h_ w_ : ℕ)
    (mask_used : Option (ℕ → ℕ → ℚ)) (e1 e2 sf : Flow) (i j : ℕ)
    (hm : wbipathMask true alpha_1 alpha_2 h w h_ w_ mask_used e1 e2 sf i j = true) :
    wbipathMask false alpha_1 alpha_2 h w h_ w_ mask_used e1 e2 sf i j = true := by
  unfold wbipathMask at hm ⊢
  simp only [if_true, if_false, Bool.and_eq_true] at hm ⊢
  exact hm.1

/-- Witness for claim C5: 1×1 grids, zero flows, no external mask,
alpha_1 = 1/100, alpha_2 = 1/2. -/
theorem cyclic_mask_only_removes_pixels_witness :
    wbipathMask true (1/100) (1/2) 1 1 1 1 none zeroFlow zeroFlow zeroFlow 0 0 = true ∧
    wbipathMask false (1/100) (1/2) 1 1 1 1 none zeroFlow zeroFlow zeroFlow 0 0 = true := by
  have hm : wbipathMask true (1/100) (1/2) 1 1 1 1 none zeroFlow zeroFlow zeroFlow 0 0 = true := by
    norm_num [wbipathMask, wbipathWarpingCopy, wbipathWarpingFlow, warpFlow, warp,
      gridSampleZeros, bilinearSampleZeros, getPixelZeros, pwcVgridX, pwcVgridY,
      get_cyclic_consistency_mask, length_sq, cyclicSyntheticDownsample,
      interpolateBilinear, interpSrcCoord, clampIdx, zeroFlow]
  exact ⟨hm, cyclic_mask_only_removes_pixels (1/100) (1/2) 1 1 1 1 none
    zeroFlow zeroFlow zeroFlow 0 0 hm⟩

/-- Claim C6: with equal configured weights, (i) when the two detached
losses are exactly equal and positive the adaptive weighting yields the
self-supervised factor exactly 1 and the unsupervised factor within 1e-8/L
of 1, and the combined loss within 1e-8 of the plain sum of the two
losses; (ii) when the unsupervised loss exceeds the self-supervised one by
at least the 1e-8 epsilon, the unsupervised weight stays 1 and the smaller
(self-supervised) loss is rescaled upward by a factor ≥ 1; (iii)
symmetrically when the self-supervised loss is the larger. -/
theorem adaptive_weighting_balanced :
    (∀ L wgt : ℚ, 0 < L → 0 < wgt →
      (weights_self_supervised_and_unsupervised false wgt wgt 0 0 L L).2.1 = 1 ∧
      1 - 1e-8 / L ≤ (weights_self_supervised_and_unsupervised false wgt wgt 0 0 L L).1 ∧
      (weights_self_supervised_and_unsupervised false wgt wgt 0 0 L L).1 ≤ 1 ∧
      |(weights_self_supervised_and_unsupervised false wgt wgt 0 0 L L).2.2 - (L + L)|
        ≤ 1e-8) ∧
    (∀ lsu lun wgt : ℚ, 0 ≤ lsu → lsu + 1e-8 ≤ lun → 0 < wgt →
      (weights_self_supervised_and_unsupervised false wgt wgt 0 0 lsu lun).1 = 1 ∧
      1 ≤ (weights_self_supervised_and_unsupervised false wgt wgt 0 0 lsu lun).2.1) ∧
    (∀ lsu lun wgt : ℚ, 0 ≤ lun → lun + 1e-8 ≤ lsu → 0 < wgt →
      (weights_self_supervised_and_unsupervised false wgt wgt 0 0 lsu lun).2.1 = 1 ∧
      1 ≤ (weights_self_supervised_and_unsupervised false wgt wgt 0 0 lsu lun).1) := by
  have heps : (0 : ℚ) < 1e-8 := by norm_num
  refine ⟨?_, ?_, ?_⟩
  · intro L wgt hL hw
    have hrat : wgt / wgt = 1 := div_self (ne_of_gt hw)
    have hcond : ¬(L < L) := lt_irrefl L
    have hLd : (0 : ℚ) < L + 1e-8 := by linarith
    simp only [weights_self_supervised_and_unsupervised, if_true, if_neg hcond,
      hrat, div_one]
    have hu1 : L / (L + 1e-8) ≤ 1 := by
      rw [div_le_one hLd]; linarith
    have hu0 : 1 - 1e-8 / L ≤ L / (L + 1e-8) := by
      rw [one_sub_div (ne_of_gt hL), div_le_div_iff₀ hL hLd]
      nlinarith
    refine ⟨trivial, hu0, hu1, ?_⟩
    have hdiff : L * (L / (L + 1e-8)) + L * 1 - (L + L) = -(L * 1e-8 / (L + 1e-8)) := by
      field_simp
      ring
    rw [hdiff, abs_neg, abs_of_nonneg (by positivity)]
    rw [div_le_iff₀ hLd]
    nlinarith
  · intro lsu lun wgt hsu hgap hw
    have hrat : wgt / wgt = 1 := div_self (ne_of_gt hw)
    have hcond : lsu < lun := by linarith
    have hd : (0 : ℚ) < lsu + 1e-8 := by linarith
    simp only [weights_self_supervised_and_unsupervised, if_true, if_pos hcond,
      hrat, mul_one]
    refine ⟨trivial, ?_⟩
    rw [le_div_iff₀ hd]
    linarith
  · intro lsu lun wgt hun hgap hw
    have hrat : wgt / wgt = 1 := div_self (ne_of_gt hw)
    have hcond : ¬(lsu < lun) := by linarith
    have hd : (0 : ℚ) < lun + 1e-8 := by linarith
    simp only [weights_self_supervised_and_unsupervised, if_true, if_neg hcond,
      hrat, div_one]
    refine ⟨trivial, ?_⟩
    rw [le_div_iff₀ hd]
    linarith

/-- With a supplied mask the NaN/Inf-augmented mask coincides with it:
exact arithmetic yields no NaN/Inf. -/
theorem nanInfMask_some (em : ErrMap) (m : BMask) : nanInfMask em (some m) = m := by
  funext bb i j
  simp [nanInfMask, isNaNReal, isInfReal]

/-- The per-sample-normalized loss written with the raw error map summed
over each sample's valid pixels (multiplying by the float mask is the
identity there). -/
theorem perSampleNormalizedLoss_eq_valid_sum (b h w : ℕ) (em : ErrMap) (m : BMask) :
    perSampleNormalizedLoss b h w em m
      = ∑ bb in Finset.range b,
          (∑ p in ((Finset.range h) ×ˢ (Finset.range w)).filter
              (fun p => m bb p.1 p.2 = true), em bb p.1 p.2)
            * (((h : ℝ) * (w : ℝ))
                / ((validCount h w (fun i j => m bb i j) : ℝ) + 1e-6)) := by
  unfold perSampleNormalizedLoss sampleContrib
  refine Finset.sum_congr rfl (fun bb _ => ?_)
  congr 1
  refine Finset.sum_congr rfl (fun p hp => ?_)
  rw [Finset.mem_filter] at hp
  show em bb p.1 p.2 * (if m bb p.1 p.2 = true then 1 else 0) = em bb p.1 p.2
  rw [if_pos hp.2, mul_one]

/-- Claim C10: with mask=None an internal NaN/Inf validity mask is always
constructed in place of the missing mask, so the per-sample-normalized
branch always executes and every call to EPE, L1 or L1Charbonnier returns
a scalar — the `valid_transformation_bool` and raw-error-map code after
that branch is unreachable. -/
theorem losses_always_scalar_via_masked_branch (sn : Bool) (vtb : Option (ℕ → ℝ))
    (b h w : ℕ) (gt est : BFlow) (mask : Option BMask) :
    EPE.call sn vtb b h w gt est mask
      = .scalar (if sn = true
          then perSampleNormalizedLoss b h w (epeMap gt est)
              (nanInfMask (epeMap gt est) mask) / (b : ℝ)
          else perSampleNormalizedLoss b h w (epeMap gt est)
              (nanInfMask (epeMap gt est) mask)) ∧
    L1.call sn vtb b h w gt est mask
      = .scalar (if sn = true
          then perSampleNormalizedLoss b h w (l1Map gt est)
              (nanInfMask (l1Map gt est) mask) / (b : ℝ)
          else perSampleNormalizedLoss b h w (l1Map gt est)
              (nanInfMask (l1Map gt est) mask)) ∧
    L1Charbonnier.call sn vtb b h w gt est mask
      = .scalar (if sn = true
          then perSampleNormalizedLoss b h w (charbMap gt est)
              (nanInfMask (charbMap gt est) mask) / (b : ℝ)
          else perSampleNormalizedLoss b h w (charbMap gt est)
              (nanInfMask (charbMap gt est) mask)) := by
  refine ⟨?_, ?_, ?_⟩ <;> cases sn <;> rfl

/-- Claim C4: with sum_normalized=True and a valid mask, each of EPE, L1
and L1Charbonnier returns (1/b) times the sum over samples of (the error
summed over that sample's valid pixels) times (h·w)/(valid count + 1e-6);
and on the spec's 2-sample batch with constant per-pixel error 1 where
sample 0's mask covers 100% of the 10×10 pixels and sample 1's covers 1%,
the two per-sample contributions agree to within 1/1000 (the exact values
differ only through the 1e-6 denominator epsilon). -/
theorem per_sample_normalization_formula :
    (∀ (vtb : Option (ℕ → ℝ)) (b h w : ℕ) (gt est : BFlow) (m : BMask),
      EPE.call true vtb b h w gt est (some m)
        = .scalar ((1 / (b : ℝ)) * ∑ bb in Finset.range b,
            (∑ p in ((Finset.range h) ×ˢ (Finset.range w)).filter
                (fun p => m bb p.1 p.2 = true), epeMap gt est bb p.1 p.2)
              * (((h : ℝ) * (w : ℝ))
                  / ((validCount h w (fun i j => m bb i j) : ℝ) + 1e-6)))) ∧
    (∀ (vtb : Option (ℕ → ℝ)) (b h w : ℕ) (gt est : BFlow) (m : BMask),
      L1.call true vtb b h w gt est (some m)
        = .scalar ((1 / (b : ℝ)) * ∑ bb in Finset.range b,
            (∑ p in ((Finset.range h) ×ˢ (Finset.range w)).filter
                (fun p => m bb p.1 p.2 = true), l1Map gt est bb p.1 p.2)
              * (((h : ℝ) * (w : ℝ))
                  / ((validCount h w (fun i j => m bb i j) : ℝ) + 1e-6)))) ∧
    (∀ (vtb : Option (ℕ → ℝ)) (b h w : ℕ) (gt est : BFlow) (m : BMask),
      L1Charbonnier.call true vtb b h w gt est (some m)
        = .scalar ((1 / (b : ℝ)) * ∑ bb in Finset.range b,
            (∑ p in ((Finset.range h) ×ˢ (Finset.range w)).filter
                (fun p => m bb p.1 p.2 = true), charbMap gt est bb p.1 p.2)
              * (((h : ℝ) * (w : ℝ))
                  / ((validCount h w (fun i j => m bb i j) : ℝ) + 1e-6)))) ∧
    (L1.call true none 2 10 10 demoGt demoEst (some demoMask)
        = .scalar ((10000 / (100 + 1e-6) + 100 / (1 + 1e-6)) / 2) ∧
      |(10000 / (100 + 1e-6) : ℝ) - 100 / (1 + 1e-6)| ≤ 1 / 1000) := by
  have hepe : ∀ (vtb : Option (ℕ → ℝ)) (b h w : ℕ) (gt est : BFlow) (m : BMask),
      EPE.call true vtb b h w gt est (some m)
        = .scalar ((1 / (b : ℝ)) * ∑ bb in Finset.range b,
            (∑ p in ((Finset.range h) ×ˢ (Finset.range w)).filter
                (fun p => m bb p.1 p.2 = true), epeMap gt est bb p.1 p.2)
              * (((h : ℝ) * (w : ℝ))
                  / ((validCount h w (fun i j => m bb i j) : ℝ) + 1e-6))) := by
    intro vtb b h w gt est m
    show LossOutput.scalar (perSampleNormalizedLoss b h w (epeMap gt est)
        (nanInfMask (epeMap gt est) (some m)) / (b : ℝ)) = _
    rw [nanInfMask_some, perSampleNormalizedLoss_eq_valid_sum]
    rw [div_eq_mul_inv, mul_comm, inv_eq_one_div]
  have hl1 : ∀ (vtb : Option (ℕ → ℝ)) (b h w : ℕ) (gt est : BFlow) (m : BMask),
      L1.call true vtb b h w gt est (some m)
        = .scalar ((1 / (b : ℝ)) * ∑ bb in Finset.range b,
            (∑ p in ((Finset.range h) ×ˢ (Finset.range w)).filter
                (fun p => m bb p.1 p.2 = true), l1Map gt est bb p.1 p.2)
              * (((h : ℝ) * (w : ℝ))
                  / ((validCount h w (fun i j => m bb i j) : ℝ) + 1e-6))) := by
    intro vtb b h w gt est m
    show LossOutput.scalar (perSampleNormalizedLoss b h w (l1Map gt est)
        (nanInfMask (l1Map gt est) (some m)) / (b : ℝ)) = _
    rw [nanInfMask_some, perSampleNormalizedLoss_eq_valid_sum]
    rw [div_eq_mul_inv, mul_comm, inv_eq_one_div]
  have hch : ∀ (vtb : Option (ℕ → ℝ)) (b h w : ℕ) (gt est : BFlow) (m : BMask),
      L1Charbonnier.call true vtb b h w gt est (some m)
        = .scalar ((1 / (b : ℝ)) * ∑ bb in Finset.range b,
            (∑ p in ((Finset.range h) ×ˢ (Finset.range w)).filter
                (fun p => m bb p.1 p.2 = true), charbMap gt est bb p.1 p.2)
              * (((h : ℝ) * (w : ℝ))
                  / ((validCount h w (fun i j => m bb i j) : ℝ) + 1e-6))) := by
    intro vtb b h w gt est m
    show LossOutput.scalar (perSampleNormalizedLoss b h w (charbMap gt est)
        (nanInfMask (charbMap gt est) (some m)) / (b : ℝ)) = _
    rw [nanInfMask_some, perSampleNormalizedLoss_eq_valid_sum]
    rw [div_eq_mul_inv, mul_comm, inv_eq_one_div]
  refine ⟨hepe, hl1, hch, ?_, ?_⟩
  · rw [hl1 none 2 10 10 demoGt demoEst demoMask]
    have hfilter0 : ((Finset.range 10) ×ˢ (Finset.range 10)).filter
        (fun p => demoMask 0 p.1 p.2 = true) = (Finset.range 10) ×ˢ (Finset.range 10) := by
      decide
    have hfilter1 : ((Finset.range 10) ×ˢ (Finset.range 10)).filter
        (fun p => demoMask 1 p.1 p.2 = true) = {(0, 0)} := by
      decide
    have hc0 : validCount 10 10 (fun i j => demoMask 0 i j) = 100 := by decide
    have hc1 : validCount 10 10 (fun i j => demoMask 1 i j) = 1 := by decide
    have hone : ∀ bb i j, l1Map demoGt demoEst bb i j = 1 := by
      intro bb i j
      norm_num [l1Map, demoGt, demoEst]
    rw [Finset.sum_range_succ, Finset.sum_range_succ, Finset.sum_range_zero]
    rw [hfilter0, hfilter1, hc0, hc1]
    rw [Finset.sum_congr rfl (fun p _ => hone 0 p.1 p.2), Finset.sum_singleton, hone 1 0 0]
    rw [Finset.sum_const, Finset.card_product, Finset.card_range]
    congr 1
    norm_num
  · rw [abs_of_nonneg (by norm_num)]
    norm_num

/-- Claim C7: a sample whose valid mask has zero valid pixels has
norm_const denominator exactly 1e-6 (never zero), its per-sample
contribution is exactly zero for any error map, and each of the three
losses returns the scalar built from the remaining samples only. -/
theorem zero_valid_mask_sample_contributes_zero (vtb : Option (ℕ → ℝ)) (b h w : ℕ)
    (gt est : BFlow) (m : BMask) (bb : ℕ) (hbb : bb < b)
    (hall : ∀ i j, i < h → j < w → m bb i j = false) :
    validCount h w (fun i j => m bb i j) = 0 ∧
    (0 : ℝ) < (validCount h w (fun i j => m bb i j) : ℝ) + 1e-6 ∧
    (∀ em : ErrMap, sampleContrib h w
        (fun i j => em bb i j * (if m bb i j then 1 else 0)) (fun i j => m bb i j) = 0) ∧
    EPE.call true vtb b h w gt est (some m)
      = .scalar ((∑ b2 in (Finset.range b).erase bb,
          sampleContrib h w (fun i j => epeMap gt est b2 i j * (if m b2 i j then 1 else 0))
            (fun i j => m b2 i j)) / (b : ℝ)) ∧
    L1.call true vtb b h w gt est (some m)
      = .scalar ((∑ b2 in (Finset.range b).erase bb,
          sampleContrib h w (fun i j => l1Map gt est b2 i j * (if m b2 i j then 1 else 0))
            (fun i j => m b2 i j)) / (b : ℝ)) ∧
    L1Charbonnier.call true vtb b h w gt est (some m)
      = .scalar ((∑ b2 in (Finset.range b).erase bb,
          sampleContrib h w (fun i j => charbMap gt est b2 i j * (if m b2 i j then 1 else 0))
            (fun i j => m b2 i j)) / (b : ℝ)) := by
  have hemp : ((Finset.range h) ×ˢ (Finset.range w)).filter
      (fun p => m bb p.1 p.2 = true) = ∅ := by
    rw [Finset.filter_eq_empty_iff]
    intro p hp
    rw [Finset.mem_product, Finset.mem_range, Finset.mem_range] at hp
    simp [hall p.1 p.2 hp.1 hp.2]
  have hcount : validCount h w (fun i j => m bb i j) = 0 := by
    unfold validCount
    rw [hemp, Finset.card_empty]
  have hzero : ∀ em : ErrMap, sampleContrib h w
      (fun i j => em bb i j * (if m bb i j then 1 else 0)) (fun i j => m bb i j) = 0 := by
    intro em
    unfold sampleContrib
    rw [hemp, Finset.sum_empty, zero_mul]
  have hloss : ∀ em : ErrMap, perSampleNormalizedLoss b h w em m
      = ∑ b2 in (Finset.range b).erase bb,
          sampleContrib h w (fun i j => em b2 i j * (if m b2 i j then 1 else 0))
            (fun i j => m b2 i j) := by
    intro em
    unfold perSampleNormalizedLoss
    rw [← Finset.add_sum_erase (Finset.range b)
      (fun b2 => sampleContrib h w (fun i j => em b2 i j * (if m b2 i j then 1 else 0))
        (fun i j => m b2 i j)) (Finset.mem_range.mpr hbb)]
    rw [hzero em, zero_add]
  refine ⟨hcount, by positivity, hzero, ?_, ?_, ?_⟩
  · show LossOutput.scalar (perSampleNormalizedLoss b h w (epeMap gt est)
        (nanInfMask (epeMap gt est) (some m)) / (b : ℝ)) = _
    rw [nanInfMask_some, hloss (epeMap gt est)]
  · show LossOutput.scalar (perSampleNormalizedLoss b h w (l1Map gt est)
        (nanInfMask (l1Map gt est) (some m)) / (b : ℝ)) = _
    rw [nanInfMask_some, hloss (l1Map gt est)]
  · show LossOutput.scalar (perSampleNormalizedLoss b h w (charbMap gt est)
        (nanInfMask (charbMap gt est) (some m)) / (b : ℝ)) = _
    rw [nanInfMask_some, hloss (charbMap gt est)]

/-- Witness for claim C7 at batch size 1, 1×1 images, all-invalid mask. -/
theorem zero_valid_mask_sample_contributes_zero_witness :
    (0 : ℕ) < 1 ∧
    (validCount 1 1 (fun i j => falseMask 0 i j) = 0 ∧
     (0 : ℝ) < (validCount 1 1 (fun i j => falseMask 0 i j) : ℝ) + 1e-6 ∧
     (∀ em : ErrMap, sampleContrib 1 1
         (fun i j => em 0 i j * (if falseMask 0 i j then 1 else 0))
         (fun i j => falseMask 0 i j) = 0) ∧
     EPE.call true none 1 1 1 demoGt demoEst (some falseMask)
       = .scalar ((∑ b2 in (Finset.range 1).erase 0,
           sampleContrib 1 1
             (fun i j => epeMap demoGt demoEst b2 i j * (if falseMask b2 i j then 1 else 0))
             (fun i j => falseMask b2 i j)) / ((1 : ℕ) : ℝ)) ∧
     L1.call true none 1 1 1 demoGt demoEst (some falseMask)
       = .scalar ((∑ b2 in (Finset.range 1).erase 0,
           sampleContrib 1 1
             (fun i j => l1Map demoGt demoEst b2 i j * (if falseMask b2 i j then 1 else 0))
             (fun i j => falseMask b2 i j)) / ((1 : ℕ) : ℝ)) ∧
     L1Charbonnier.call true none 1 1 1 demoGt demoEst (some falseMask)
       = .scalar ((∑ b2 in (Finset.range 1).erase 0,
           sampleContrib 1 1
             (fun i j => charbMap demoGt demoEst b2 i j * (if falseMask b2 i j then 1 else 0))
             (fun i j => falseMask b2 i j)) / ((1 : ℕ) : ℝ))) :=
  ⟨Nat.one_pos,
    zero_valid_mask_sample_contributes_zero none 1 1 1 demoGt demoEst falseMask 0
      Nat.one_pos (fun _ _ _ _ => rfl)⟩

/-- Witness for claim C6: equal losses 1 with equal weights 1, and the
two strict-imbalance cases at (1, 2) and (2, 1). -/
theorem adaptive_weighting_balanced_witness :
    ((weights_self_supervised_and_unsupervised false 1 1 0 0 1 1).2.1 = 1 ∧
      1 - 1e-8 / 1 ≤ (weights_self_supervised_and_unsupervised false 1 1 0 0 1 1).1 ∧
      (weights_self_supervised_and_unsupervised false 1 1 0 0 1 1).1 ≤ 1 ∧
      |(weights_self_supervised_and_unsupervised false 1 1 0 0 1 1).2.2 - (1 + 1)| ≤ 1e-8) ∧
    ((weights_self_supervised_and_unsupervised false 1 1 0 0 1 2).1 = 1 ∧
      1 ≤ (weights_self_supervised_and_unsupervised false 1 1 0 0 1 2).2.1) ∧
    ((weights_self_supervised_and_unsupervised false 1 1 0 0 2 1).2.1 = 1 ∧
      1 ≤ (weights_self_supervised_and_unsupervised false 1 1 0 0 2 1).1) :=
  ⟨adaptive_weighting_balanced.1 1 1 (by norm_num) (by norm_num),
   adaptive_weighting_balanced.2.1 1 2 1 (by norm_num) (by norm_num) (by norm_num),
   adaptive_weighting_balanced.2.2 2 1 1 (by norm_num) (by norm_num) (by norm_num)⟩

end DM
